import Mathlib

/-!
Verification development for the ray-tracer core in `src/main.rs`
(homogeneous tuples, colors, canvas, PPM serialization).

Modelling conventions:
* `f32` values in the tuple algebra are idealized as real numbers (`ℝ`);
  `f32::sqrt` becomes `Real.sqrt`.  All arithmetic appearing in the claims
  about the tuple algebra is exact in IEEE f32 at the inputs concerned
  (subtraction of the tags 0.0/1.0, negation, products in `dot`/`cross`).
* `f32` values in the color/canvas layer are idealized as rationals (`ℚ`),
  keeping every definition computable so concrete canvases and PPM strings
  evaluate inside Lean.  The constants appearing in the channel mapping
  (0.0, 1.0, 255.0, 0.5) and the required outputs are all exactly
  representable in f32, so the claims are unaffected by this idealization.
* For the claims about IEEE special values (division by a zero scalar,
  normalizing a zero-length vector) a separate model `FExt` represents
  a float as either a finite rational, NaN, or a signed infinity, with
  division following the IEEE-754 special-value rules (which are exact,
  involving no rounding).
* Rust's `Vec<Vec<Color>>` becomes `List (List Color)`; `pixels[y][x] = c`
  becomes `List.set`; indexing in the in-bounds regime covered by the
  claims is modelled with `List.getD` (out-of-bounds indexing panics in
  Rust, so no claim depends on the default).
-/

namespace Ray

/-! ## Tuple (src/main.rs lines 13-133), over ℝ -/

/-- `struct Tuple { x: f32, y: f32, z: f32, w: f32 }`. -/
structure Tuple where
  x : ℝ
  y : ℝ
  z : ℝ
  w : ℝ

namespace Tuple

/-- `Tuple::new`. -/
def new (x y z w : ℝ) : Tuple := ⟨x, y, z, w⟩

/-- `Tuple::point`: `w = 1.0`. -/
def point (x y z : ℝ) : Tuple := ⟨x, y, z, 1⟩

/-- `Tuple::vector`: `w = 0.0`. -/
def vector (x y z : ℝ) : Tuple := ⟨x, y, z, 0⟩

/-- `Tuple::is_point`: `self.w == 1.0`. -/
def is_point (t : Tuple) : Prop := t.w = 1

/-- `Tuple::is_vector`: `self.w == 0.0`. -/
def is_vector (t : Tuple) : Prop := t.w = 0

/-- `Tuple::magnitude`: `sqrt(x*x + y*y + z*z)`; `w` does not contribute. -/
noncomputable def magnitude (t : Tuple) : ℝ :=
  Real.sqrt (t.x * t.x + t.y * t.y + t.z * t.z)

/-- `Tuple::normalize`: every component divided by `magnitude(self)`. -/
noncomputable def normalize (t : Tuple) : Tuple :=
  ⟨t.x / magnitude t, t.y / magnitude t, t.z / magnitude t, t.w / magnitude t⟩

/-- `Tuple::dot`: four pairwise products, including `w*w`. -/
def dot (a b : Tuple) : ℝ := a.x * b.x + a.y * b.y + a.z * b.z + a.w * b.w

/-- `Tuple::cross`: 3D cross product of the (x,y,z) parts, `w: 0.0`. -/
def cross (a b : Tuple) : Tuple :=
  ⟨a.y * b.z - a.z * b.y, a.z * b.x - a.x * b.z, a.x * b.y - a.y * b.x, 0⟩

/-- `impl Add for Tuple`: component-wise. -/
def add (a b : Tuple) : Tuple := ⟨a.x + b.x, a.y + b.y, a.z + b.z, a.w + b.w⟩

/-- `impl Sub for Tuple`: component-wise. -/
def sub (a b : Tuple) : Tuple := ⟨a.x - b.x, a.y - b.y, a.z - b.z, a.w - b.w⟩

/-- `impl Neg for Tuple`: component-wise negation. -/
def neg (a : Tuple) : Tuple := ⟨-a.x, -a.y, -a.z, -a.w⟩

/-- `impl Mul<f32> for Tuple`: component-wise scale. -/
def mulScalar (a : Tuple) (s : ℝ) : Tuple := ⟨a.x * s, a.y * s, a.z * s, a.w * s⟩

/-- `impl Div<f32> for Tuple`: component-wise division by the scalar. -/
noncomputable def divScalar (a : Tuple) (s : ℝ) : Tuple := ⟨a.x / s, a.y / s, a.z / s, a.w / s⟩

instance : Add Tuple := ⟨add⟩

instance : Sub Tuple := ⟨sub⟩

instance : Neg Tuple := ⟨neg⟩

end Tuple

/-! ## Color (src/main.rs lines 172-249), over ℚ -/

/-- `struct Color { red: f32, green: f32, blue: f32 }`. -/
structure Color where
  red : ℚ
  green : ℚ
  blue : ℚ
deriving DecidableEq, Repr

namespace Color

/-- `Color::new`. -/
def new (red green blue : ℚ) : Color := ⟨red, green, blue⟩

/-- Rust `f32::clamp(min, max)`: `min` if below, `max` if above, else the
value itself. -/
def clampQ (v lo hi : ℚ) : ℚ := if v < lo then lo else if hi < v then hi else v

/-- Rust `f32::round`: nearest integer, ties rounded away from zero. -/
def roundHalfAway (q : ℚ) : ℤ := if 0 ≤ q then ⌊q + 1 / 2⌋ else ⌈q - 1 / 2⌉

/-- `Color::clamp_and_round`: `(rgb_value.clamp(0.0, 1.0) * 255.0).round() as i32`. -/
def clamp_and_round (rgb_value : ℚ) : ℤ := roundHalfAway (clampQ rgb_value 0 1 * 255)

/-- `Color::to_integers_tuple`: the three channels through `clamp_and_round`. -/
def to_integers_tuple (c : Color) : ℤ × ℤ × ℤ :=
  (clamp_and_round c.red, clamp_and_round c.green, clamp_and_round c.blue)

/-- `Color::to_string`: `format!("{} {} {}", red, green, blue)` on the
integer triple. -/
def to_string (c : Color) : String :=
  toString (to_integers_tuple c).1 ++ " " ++ toString (to_integers_tuple c).2.1
    ++ " " ++ toString (to_integers_tuple c).2.2

/-- `impl Add for Color`: component-wise. -/
def add (a b : Color) : Color := ⟨a.red + b.red, a.green + b.green, a.blue + b.blue⟩

/-- `impl Sub for Color`: component-wise. -/
def sub (a b : Color) : Color := ⟨a.red - b.red, a.green - b.green, a.blue - b.blue⟩

/-- `impl Mul<f32> for Color`: component-wise scale. -/
def mulScalar (a : Color) (s : ℚ) : Color := ⟨a.red * s, a.green * s, a.blue * s⟩

/-- `impl Mul<Color> for Color`: Hadamard product. -/
def mulColor (a b : Color) : Color := ⟨a.red * b.red, a.green * b.green, a.blue * b.blue⟩

end Color

/-! ## Canvas (src/main.rs lines 253-313) -/

/-- `struct Canvas { width: usize, height: usize, pixels: Vec<Vec<Color>> }`. -/
structure Canvas where
  width : ℕ
  height : ℕ
  pixels : List (List Color)
deriving DecidableEq

/-- The black color `Color::new(0.0, 0.0, 0.0)` used to fill a new canvas. -/
def black : Color := ⟨0, 0, 0⟩

namespace Canvas

/-- `Canvas::new`: `vec![vec![black; width]; height]`. -/
def new (width height : ℕ) : Canvas :=
  ⟨width, height, List.replicate height (List.replicate width black)⟩

/-- `Canvas::pixel_at`: `pixels[y][x]` (in-bounds regime; Rust panics
out of bounds, Lean returns the defaults). -/
def pixel_at (c : Canvas) (x y : ℕ) : Color := (c.pixels.getD y []).getD x black

/-- `Canvas::write_pixel`: `pixels[y][x] = color`, width and height carried
over unchanged. -/
def write_pixel (c : Canvas) (x y : ℕ) (color : Color) : Canvas :=
  ⟨c.width, c.height, c.pixels.set y ((c.pixels.getD y []).set x color)⟩

/-- `Canvas::pixels_to_string`: each row's colors joined by `" "`, the rows
joined by `"\n"`. -/
def pixels_to_string (pixels : List (List Color)) : String :=
  String.intercalate "\n"
    (pixels.map (fun row => String.intercalate " " (row.map Color.to_string)))

/-- `Canvas::canvas_to_ppm`:
`format!("{}\n{} {}\n{}\n{}\n", "P3", width, height, 255, pixels)`. -/
def canvas_to_ppm (c : Canvas) : String :=
  "P3" ++ "\n" ++ toString c.width ++ " " ++ toString c.height ++ "\n"
    ++ toString (255 : Int) ++ "\n" ++ pixels_to_string c.pixels ++ "\n"

/-- Shape invariant maintained by the code: the grid has `height` rows of
`width` cells each. -/
def wellFormed (c : Canvas) : Prop :=
  c.pixels.length = c.height ∧ ∀ row ∈ c.pixels, row.length = c.width

instance (c : Canvas) : Decidable (wellFormed c) := by
  unfold wellFormed; infer_instance

end Canvas

/-! ## IEEE special-value model of f32, for the divide-by-zero /
degenerate-normalize behavior.  Finite values are idealized as exact
rationals; NaN and the signed infinities are explicit.  The special-value
rules of IEEE 754 (x/0, 0/0, operations on NaN and ±∞) involve no rounding,
so this model is exact precisely on the behavior the claim is about. -/

/-- A floating-point value: finite (exact rational), NaN, +∞ or -∞.
The sign of zero is not tracked (Rust's `==` on f32 identifies 0.0 and
-0.0, and no claim distinguishes them). -/
inductive FExt where
  | fin (q : ℚ)
  | nan
  | inf
  | neginf
deriving DecidableEq, Repr

namespace FExt

/-- A value is finite iff it is `fin q` for some rational `q`. -/
def isFinite : FExt → Bool
  | fin _ => true
  | _ => false

/-- IEEE-754 division.  Finite ÷ finite-nonzero is idealized as exact
rational division (f32 would round); every special-value case follows
IEEE 754 exactly: x/0 with x ≠ 0 gives a signed infinity, 0/0 gives NaN,
NaN propagates, finite/±∞ gives 0, ±∞/±∞ gives NaN, ±∞/finite gives a
signed infinity. -/
def div : FExt → FExt → FExt
  | nan, _ => nan
  | _, nan => nan
  | fin a, fin b =>
      if b = 0 then (if a = 0 then nan else if 0 < a then inf else neginf)
      else fin (a / b)
  | fin _, inf => fin 0
  | fin _, neginf => fin 0
  | inf, fin b => if 0 ≤ b then inf else neginf
  | neginf, fin b => if 0 ≤ b then neginf else inf
  | inf, inf => nan
  | inf, neginf => nan
  | neginf, inf => nan
  | neginf, neginf => nan

/-- IEEE-754 multiplication (finite × finite idealized as exact). -/
def mul : FExt → FExt → FExt
  | nan, _ => nan
  | _, nan => nan
  | fin a, fin b => fin (a * b)
  | fin a, inf => if a = 0 then nan else if 0 < a then inf else neginf
  | fin a, neginf => if a = 0 then nan else if 0 < a then neginf else inf
  | inf, fin b => if b = 0 then nan else if 0 < b then inf else neginf
  | neginf, fin b => if b = 0 then nan else if 0 < b then neginf else inf
  | inf, inf => inf
  | inf, neginf => neginf
  | neginf, inf => neginf
  | neginf, neginf => inf

/-- IEEE-754 addition (finite + finite idealized as exact). -/
def add : FExt → FExt → FExt
  | nan, _ => nan
  | _, nan => nan
  | fin a, fin b => fin (a + b)
  | fin _, inf => inf
  | fin _, neginf => neginf
  | inf, fin _ => inf
  | neginf, fin _ => neginf
  | inf, inf => inf
  | inf, neginf => nan
  | neginf, inf => nan
  | neginf, neginf => neginf

/-- IEEE-754 square root: NaN for NaN and for negative arguments
(including -∞), +∞ for +∞, exact at 0; a positive finite argument is
idealized through `Rat.sqrt` (f32 rounds; only `sqrt 0 = 0` matters to
the claims, and there IEEE is exact). -/
def sqrt : FExt → FExt
  | nan => nan
  | inf => inf
  | neginf => nan
  | fin q => if q < 0 then nan else fin (Rat.sqrt q)

end FExt

/-- The Tuple of src/main.rs, over the special-value float model. -/
structure TupleE where
  x : FExt
  y : FExt
  z : FExt
  w : FExt
deriving DecidableEq, Repr

namespace TupleE

/-- `impl Div<f32> for Tuple` over the special-value model: each component
divided by the scalar. -/
def divScalar (t : TupleE) (s : FExt) : TupleE :=
  ⟨t.x.div s, t.y.div s, t.z.div s, t.w.div s⟩

/-- `Tuple::magnitude` over the special-value model:
`sqrt(x*x + y*y + z*z)`. -/
def magnitude (t : TupleE) : FExt :=
  (((t.x.mul t.x).add (t.y.mul t.y)).add (t.z.mul t.z)).sqrt

/-- `Tuple::normalize` over the special-value model: every component
divided by `magnitude(self)`. -/
def normalize (t : TupleE) : TupleE :=
  ⟨t.x.div (magnitude t), t.y.div (magnitude t),
   t.z.div (magnitude t), t.w.div (magnitude t)⟩

/-- `Tuple::vector(0.0, 0.0, 0.0)`, the zero vector. -/
def zeroVector : TupleE := ⟨.fin 0, .fin 0, .fin 0, .fin 0⟩

end TupleE

/-- Spec-side PPM layout, following the claim's words: the line `P3`, the
line `width height`, the line `255`, then one pixel line per row index
`y < height` (top to bottom), each the space-joined channel triples of the
pixels at `x = 0, …, width-1` of that row, the pixel lines separated by
single newlines, the whole terminated by one trailing newline. -/
def ppmSpec (c : Canvas) : String :=
  "P3" ++ "\n" ++ toString c.width ++ " " ++ toString c.height ++ "\n"
    ++ "255" ++ "\n"
    ++ String.intercalate "\n"
      ((List.range c.height).map (fun y =>
        String.intercalate " "
          ((List.range c.width).map (fun x => Color.to_string (c.pixel_at x y)))))
    ++ "\n"

end Ray

namespace Ray

/-! ## Helper lemmas -/

theorem Tuple.eq_of_fields {a b : Tuple} (hx : a.x = b.x) (hy : a.y = b.y)
    (hz : a.z = b.z) (hw : a.w = b.w) : a = b := by
  cases a; cases b; simp_all

/-! ## Claims about the tuple algebra -/

/-- C4: Tuple subtraction is component-wise on all four fields; hence
point - point is a vector (w = 0 exactly), point - vector is a point
(w = 1 exactly), and vector - vector is a vector (w = 0 exactly). -/
theorem claim_C4_sub_componentwise_typing :
    (∀ a b : Tuple, (a - b).x = a.x - b.x ∧ (a - b).y = a.y - b.y
      ∧ (a - b).z = a.z - b.z ∧ (a - b).w = a.w - b.w)
    ∧ (∀ p1 p2 : Tuple, p1.is_point → p2.is_point → (p1 - p2).is_vector)
    ∧ (∀ p v : Tuple, p.is_point → v.is_vector → (p - v).is_point)
    ∧ (∀ v1 v2 : Tuple, v1.is_vector → v2.is_vector → (v1 - v2).is_vector) := by
  refine ⟨fun a b => ⟨rfl, rfl, rfl, rfl⟩,
    fun a b ha hb => ?_, fun a b ha hb => ?_, fun a b ha hb => ?_⟩
  · show a.w - b.w = 0
    have ha1 : a.w = 1 := ha
    have hb1 : b.w = 1 := hb
    rw [ha1, hb1]; ring
  · show a.w - b.w = 1
    have ha1 : a.w = 1 := ha
    have hb0 : b.w = 0 := hb
    rw [ha1, hb0]; ring
  · show a.w - b.w = 0
    have ha0 : a.w = 0 := ha
    have hb0 : b.w = 0 := hb
    rw [ha0, hb0]; ring

/-- Witness for C4 at the concrete points/vectors of the repository's tests. -/
theorem claim_C4_witness :
    (Tuple.point 3 2 1 - Tuple.point 5 6 7).is_vector
    ∧ (Tuple.point 3 2 1 - Tuple.vector 5 6 7).is_point
    ∧ (Tuple.vector 3 2 1 - Tuple.vector 5 6 7).is_vector :=
  ⟨claim_C4_sub_componentwise_typing.2.1 _ _ rfl rfl,
   claim_C4_sub_componentwise_typing.2.2.1 _ _ rfl rfl,
   claim_C4_sub_componentwise_typing.2.2.2 _ _ rfl rfl⟩

/-- C6: `cross` computes the 3D cross product of the (x,y,z) parts only,
its result has w = 0 regardless of the inputs' w values, and cross is
anti-commutative. -/
theorem claim_C6_cross_w_zero_anticomm :
    (∀ a b : Tuple, Tuple.cross a b =
      ⟨a.y * b.z - a.z * b.y, a.z * b.x - a.x * b.z, a.x * b.y - a.y * b.x, 0⟩)
    ∧ (∀ a b : Tuple, (Tuple.cross a b).w = 0)
    ∧ (∀ a b : Tuple, Tuple.cross a b = -(Tuple.cross b a)) := by
  refine ⟨fun a b => rfl, fun a b => rfl, fun a b => ?_⟩
  refine Tuple.eq_of_fields ?_ ?_ ?_ ?_
  · show a.y * b.z - a.z * b.y = -(b.y * a.z - b.z * a.y); ring
  · show a.z * b.x - a.x * b.z = -(b.z * a.x - b.x * a.z); ring
  · show a.x * b.y - a.y * b.x = -(b.x * a.y - b.y * a.x); ring
  · show (0 : ℝ) = -0; norm_num

/-- C7: `dot` is the sum of all four pairwise component products
(including the w*w term) and is commutative. -/
theorem claim_C7_dot_four_products_comm :
    (∀ a b : Tuple,
      Tuple.dot a b = a.x * b.x + a.y * b.y + a.z * b.z + a.w * b.w)
    ∧ (∀ a b : Tuple, Tuple.dot a b = Tuple.dot b a) := by
  refine ⟨fun a b => rfl, fun a b => ?_⟩
  show a.x * b.x + a.y * b.y + a.z * b.z + a.w * b.w
      = b.x * a.x + b.y * a.y + b.z * a.z + b.w * a.w
  ring

end Ray

namespace Ray

/-- The magnitude of a normalized tuple is exactly 1 in the idealized real
arithmetic, whenever the magnitude of the input is nonzero. -/
theorem Tuple.magnitude_normalize (v : Tuple) (h : Tuple.magnitude v ≠ 0) :
    Tuple.magnitude (Tuple.normalize v) = 1 := by
  have hs0 : (0 : ℝ) ≤ v.x * v.x + v.y * v.y + v.z * v.z := by
    have hx := mul_self_nonneg v.x
    have hy := mul_self_nonneg v.y
    have hz := mul_self_nonneg v.z
    linarith
  have hmm : Tuple.magnitude v * Tuple.magnitude v
      = v.x * v.x + v.y * v.y + v.z * v.z := Real.mul_self_sqrt hs0
  have hsne : v.x * v.x + v.y * v.y + v.z * v.z ≠ 0 := by
    intro h0
    exact h (by rw [Tuple.magnitude, h0, Real.sqrt_zero])
  have h2 : (v.x / Tuple.magnitude v) * (v.x / Tuple.magnitude v)
      + (v.y / Tuple.magnitude v) * (v.y / Tuple.magnitude v)
      + (v.z / Tuple.magnitude v) * (v.z / Tuple.magnitude v) = 1 := by
    rw [div_mul_div_comm, div_mul_div_comm, div_mul_div_comm,
      div_add_div_same, div_add_div_same, hmm, div_self hsne]
  show Real.sqrt _ = 1
  rw [show (Tuple.normalize v).x = v.x / Tuple.magnitude v from rfl,
    show (Tuple.normalize v).y = v.y / Tuple.magnitude v from rfl,
    show (Tuple.normalize v).z = v.z / Tuple.magnitude v from rfl,
    h2, Real.sqrt_one]

/-- C5: `magnitude` is the Euclidean norm of the (x,y,z) components only
(the w component does not contribute), `normalize` divides all four
components by the magnitude, and normalizing a vector (w = 0) of nonzero
magnitude yields a tuple with w = 0 exactly. -/
theorem claim_C5_magnitude_normalize_components :
    (∀ t : Tuple, Tuple.magnitude t = Real.sqrt (t.x ^ 2 + t.y ^ 2 + t.z ^ 2))
    ∧ (∀ t : Tuple, Tuple.normalize t =
        ⟨t.x / Tuple.magnitude t, t.y / Tuple.magnitude t,
         t.z / Tuple.magnitude t, t.w / Tuple.magnitude t⟩)
    ∧ (∀ v : Tuple, v.is_vector → Tuple.magnitude v ≠ 0 →
        (Tuple.normalize v).is_vector) := by
  refine ⟨fun t => by rw [Tuple.magnitude]; ring_nf, fun t => rfl,
    fun v hv hm => ?_⟩
  show v.w / Tuple.magnitude v = 0
  have hv0 : v.w = 0 := hv
  rw [hv0, zero_div]

/-- Witness for C5 at the unit vector (1,0,0), whose magnitude is 1 ≠ 0. -/
theorem claim_C5_witness :
    (Tuple.vector 1 0 0).is_vector ∧ Tuple.magnitude (Tuple.vector 1 0 0) ≠ 0
    ∧ (Tuple.normalize (Tuple.vector 1 0 0)).is_vector := by
  have hm : Tuple.magnitude (Tuple.vector 1 0 0) ≠ 0 := by
    show Real.sqrt ((1 : ℝ) * 1 + 0 * 0 + 0 * 0) ≠ 0
    rw [show (1 : ℝ) * 1 + 0 * 0 + 0 * 0 = 1 by norm_num, Real.sqrt_one]
    norm_num
  exact ⟨rfl, hm, claim_C5_magnitude_normalize_components.2.2 _ rfl hm⟩

/-- C9: for every vector of nonzero magnitude, the magnitude of its
normalization is within 1e-5 of 1 (in the idealized exact arithmetic it
is exactly 1, so the distance is 0). -/
theorem claim_C9_magnitude_of_normalized :
    ∀ v : Tuple, v.is_vector → Tuple.magnitude v ≠ 0 →
      |Tuple.magnitude (Tuple.normalize v) - 1| < 1e-5 := by
  intro v _ hm
  rw [Tuple.magnitude_normalize v hm]
  norm_num

/-- Witness for C9 at the unit vector (1,0,0). -/
theorem claim_C9_witness :
    |Tuple.magnitude (Tuple.normalize (Tuple.vector 1 0 0)) - 1| < 1e-5 := by
  have hm : Tuple.magnitude (Tuple.vector 1 0 0) ≠ 0 := by
    show Real.sqrt ((1 : ℝ) * 1 + 0 * 0 + 0 * 0) ≠ 0
    rw [show (1 : ℝ) * 1 + 0 * 0 + 0 * 0 = 1 by norm_num, Real.sqrt_one]
    norm_num
  exact claim_C9_magnitude_of_normalized _ rfl hm

end Ray

namespace Ray

/-- The clamped value always lies in [lo, hi] when lo ≤ hi. -/
theorem Color.clampQ_mem (q lo hi : ℚ) (h : lo ≤ hi) :
    lo ≤ Color.clampQ q lo hi ∧ Color.clampQ q lo hi ≤ hi := by
  unfold Color.clampQ
  split_ifs with h1 h2 <;> constructor <;> linarith

/-- C2: the channel triple applies `clamp_and_round` to each channel
independently, `clamp_and_round` is clamp-to-[0,1] then scale-by-255 then
round-half-away-from-zero, every resulting integer lies in [0, 255],
a channel value of 1/2 maps to 128, values below 0 map to 0, and values
above 1 map to 255. -/
theorem claim_C2_channel_clamp_round :
    (∀ c : Color, Color.to_integers_tuple c =
      (Color.clamp_and_round c.red, Color.clamp_and_round c.green,
       Color.clamp_and_round c.blue))
    ∧ (∀ q : ℚ, Color.clamp_and_round q
        = Color.roundHalfAway (Color.clampQ q 0 1 * 255))
    ∧ (∀ q : ℚ, 0 ≤ Color.clamp_and_round q ∧ Color.clamp_and_round q ≤ 255)
    ∧ Color.clamp_and_round (1 / 2) = 128
    ∧ (∀ q : ℚ, q < 0 → Color.clamp_and_round q = 0)
    ∧ (∀ q : ℚ, 1 < q → Color.clamp_and_round q = 255) := by
  refine ⟨fun c => rfl, fun q => rfl, fun q => ?_,
    by norm_num [Color.clamp_and_round, Color.clampQ, Color.roundHalfAway],
    fun q hq => ?_, fun q hq => ?_⟩
  · obtain ⟨h0, h1⟩ := Color.clampQ_mem q 0 1 (by norm_num)
    have hm0 : (0 : ℚ) ≤ Color.clampQ q 0 1 * 255 := by nlinarith
    have hm1 : Color.clampQ q 0 1 * 255 ≤ 255 := by nlinarith
    rw [Color.clamp_and_round, Color.roundHalfAway, if_pos hm0]
    constructor
    · exact Int.floor_nonneg.2 (by linarith)
    · have hlt : Color.clampQ q 0 1 * 255 + 1 / 2 < (256 : ℤ) := by
        push_cast
        linarith
      have := Int.floor_lt.2 hlt
      omega
  · have hc : Color.clampQ q 0 1 = 0 := by
      rw [Color.clampQ, if_pos hq]
    rw [Color.clamp_and_round, hc]
    norm_num [Color.roundHalfAway]
  · have hc : Color.clampQ q 0 1 = 1 := by
      rw [Color.clampQ, if_neg (by linarith), if_pos hq]
    rw [Color.clamp_and_round, hc]
    norm_num [Color.roundHalfAway]

/-- Witness for C2: the out-of-range channels of the repository's edge-case
test map to 0 and 255. -/
theorem claim_C2_witness :
    Color.clamp_and_round (-999) = 0 ∧ Color.clamp_and_round 999 = 255 :=
  ⟨claim_C2_channel_clamp_round.2.2.2.2.1 (-999) (by norm_num),
   claim_C2_channel_clamp_round.2.2.2.2.2 999 (by norm_num)⟩

end Ray

namespace Ray

/-- IEEE division of anything by the finite zero never yields a finite
value: 0/0 is NaN, x/0 for finite nonzero x is a signed infinity, NaN
propagates, ±∞/0 stays ±∞. -/
theorem FExt.div_fin_zero_not_finite (a : FExt) :
    (a.div (.fin 0)).isFinite = false := by
  cases a with
  | fin q =>
      rw [FExt.div, if_pos rfl]
      split_ifs <;> rfl
  | nan => rfl
  | inf => rw [FExt.div, if_pos le_rfl]; rfl
  | neginf => rw [FExt.div, if_pos le_rfl]; rfl

/-- C8: dividing a tuple by the zero scalar and normalizing a tuple of
zero magnitude are total (they return an ordinary tuple, no error or
panic — the model functions are total Lean functions) and every component
of the result is non-finite (NaN or an infinity); normalizing the zero
vector yields NaN in all four components. -/
theorem claim_C8_division_by_zero_nonfinite :
    (∀ t : TupleE, (t.divScalar (.fin 0)).x.isFinite = false
      ∧ (t.divScalar (.fin 0)).y.isFinite = false
      ∧ (t.divScalar (.fin 0)).z.isFinite = false
      ∧ (t.divScalar (.fin 0)).w.isFinite = false)
    ∧ (∀ t : TupleE, t.magnitude = .fin 0 →
        (t.normalize.x.isFinite = false ∧ t.normalize.y.isFinite = false
          ∧ t.normalize.z.isFinite = false ∧ t.normalize.w.isFinite = false))
    ∧ TupleE.zeroVector.normalize = ⟨.nan, .nan, .nan, .nan⟩ := by
  refine ⟨fun t => ⟨FExt.div_fin_zero_not_finite t.x,
      FExt.div_fin_zero_not_finite t.y, FExt.div_fin_zero_not_finite t.z,
      FExt.div_fin_zero_not_finite t.w⟩, fun t hm => ?_, ?_⟩
  · rw [show t.normalize.x = t.x.div t.magnitude from rfl,
      show t.normalize.y = t.y.div t.magnitude from rfl,
      show t.normalize.z = t.z.div t.magnitude from rfl,
      show t.normalize.w = t.w.div t.magnitude from rfl, hm]
    exact ⟨FExt.div_fin_zero_not_finite t.x, FExt.div_fin_zero_not_finite t.y,
      FExt.div_fin_zero_not_finite t.z, FExt.div_fin_zero_not_finite t.w⟩
  · have h1 : Rat.sqrt 0 = 0 := by decide
    simp [TupleE.normalize, TupleE.zeroVector, TupleE.magnitude, FExt.mul,
      FExt.add, FExt.sqrt, FExt.div, h1]

/-- Witness for C8: normalizing the zero vector, whose magnitude is the
finite zero, yields non-finite components. -/
theorem claim_C8_witness :
    TupleE.zeroVector.normalize.x.isFinite = false
    ∧ TupleE.zeroVector.normalize.y.isFinite = false
    ∧ TupleE.zeroVector.normalize.z.isFinite = false
    ∧ TupleE.zeroVector.normalize.w.isFinite = false :=
  claim_C8_division_by_zero_nonfinite.2.1 TupleE.zeroVector (by
    have h1 : Rat.sqrt 0 = 0 := by decide
    simp [TupleE.magnitude, TupleE.zeroVector, FExt.mul, FExt.add,
      FExt.sqrt, h1])

end Ray

namespace Ray

/-- Reading an updated position with `getD` yields the written element
when the index is in bounds. -/
theorem getD_set_self {α : Type} (l : List α) (i : ℕ) (a d : α)
    (h : i < l.length) : (l.set i a).getD i d = a := by
  rw [List.getD_eq_getD_get?, List.get?_eq_getElem?,
    List.getElem?_set_eq_of_lt a h]
  rfl

/-- Reading any other position with `getD` is unaffected by the update. -/
theorem getD_set_ne {α : Type} (l : List α) (i j : ℕ) (a d : α)
    (h : i ≠ j) : (l.set i a).getD j d = l.getD j d := by
  rw [List.getD_eq_getD_get?, List.get?_eq_getElem?,
    List.getElem?_set_ne h, ← List.get?_eq_getElem?,
    ← List.getD_eq_getD_get?]

/-- Reading a replicated list in bounds yields the replicated element. -/
theorem getD_replicate {α : Type} {n i : ℕ} (a d : α) (h : i < n) :
    (List.replicate n a).getD i d = a := by
  rw [List.getD_eq_getElem _ _ (by simpa using h)]
  simp

/-- C3: on a freshly constructed canvas every in-bounds pixel is black;
after `write_pixel(x, y, c)` the pixel at (x, y) reads back exactly `c`;
and every other in-bounds pixel reads the same color as before the write. -/
theorem claim_C3_read_after_write :
    (∀ w h x y : ℕ, x < w → y < h → (Canvas.new w h).pixel_at x y = black)
    ∧ (∀ (c : Canvas) (x y : ℕ) (col : Color), c.wellFormed →
        x < c.width → y < c.height →
        (c.write_pixel x y col).pixel_at x y = col)
    ∧ (∀ (c : Canvas) (x y x2 y2 : ℕ) (col : Color), c.wellFormed →
        x2 < c.width → y2 < c.height → (x2, y2) ≠ (x, y) →
        (c.write_pixel x y col).pixel_at x2 y2 = c.pixel_at x2 y2) := by
  refine ⟨fun w h x y hx hy => ?_, fun c x y col hwf hx hy => ?_,
    fun c x y x2 y2 col hwf hx2 hy2 hne => ?_⟩
  · show ((List.replicate h (List.replicate w black)).getD y []).getD x black
        = black
    rw [getD_replicate _ _ hy, getD_replicate _ _ hx]
  · obtain ⟨hlen, hrow⟩ := hwf
    have hy2 : y < c.pixels.length := by rw [hlen]; exact hy
    show ((c.pixels.set y ((c.pixels.getD y []).set x col)).getD y []).getD
        x black = col
    rw [getD_set_self _ _ _ _ hy2]
    have hx2 : x < (c.pixels.getD y []).length := by
      rw [List.getD_eq_getElem _ _ hy2, hrow _ (List.getElem_mem hy2)]
      exact hx
    rw [getD_set_self _ _ _ _ hx2]
  · show ((c.pixels.set y ((c.pixels.getD y []).set x col)).getD y2 []).getD
        x2 black = (c.pixels.getD y2 []).getD x2 black
    by_cases hyy : y2 = y
    · subst hyy
      have hxx : x ≠ x2 := by
        intro hc
        exact hne (by rw [hc])
      obtain ⟨hlen, hrow⟩ := hwf
      have hyb : y2 < c.pixels.length := by rw [hlen]; exact hy2
      rw [getD_set_self _ _ _ _ hyb, getD_set_ne _ _ _ _ _ hxx]
    · rw [getD_set_ne _ _ _ _ _ (fun hc => hyy hc.symm)]

/-- Witness for C3 on the 10×20 canvas of the repository's tests. -/
theorem claim_C3_witness :
    (Canvas.new 10 20).pixel_at 2 3 = black
    ∧ ((Canvas.new 10 20).write_pixel 2 3 ⟨1, 0, 0⟩).pixel_at 2 3 = ⟨1, 0, 0⟩
    ∧ ((Canvas.new 10 20).write_pixel 2 3 ⟨1, 0, 0⟩).pixel_at 0 0
        = (Canvas.new 10 20).pixel_at 0 0 :=
  ⟨claim_C3_read_after_write.1 10 20 2 3 (by decide) (by decide),
   claim_C3_read_after_write.2.1 (Canvas.new 10 20) 2 3 ⟨1, 0, 0⟩
     (by decide) (by decide) (by decide),
   claim_C3_read_after_write.2.2 (Canvas.new 10 20) 2 3 0 0 ⟨1, 0, 0⟩
     (by decide) (by decide) (by decide) (by decide)⟩

end Ray

namespace Ray

/-- `write_pixel` preserves the width and height fields and the grid-shape
invariant (unconditionally: an out-of-bounds `List.set` is the identity). -/
theorem Canvas.write_pixel_preserves (c : Canvas) (x y : ℕ) (col : Color)
    (hwf : c.wellFormed) :
    (c.write_pixel x y col).width = c.width
    ∧ (c.write_pixel x y col).height = c.height
    ∧ (c.write_pixel x y col).wellFormed := by
  obtain ⟨hlen, hrow⟩ := hwf
  refine ⟨rfl, rfl, ?_, ?_⟩
  · show (c.pixels.set y ((c.pixels.getD y []).set x col)).length = c.height
    rw [List.length_set]
    exact hlen
  · intro row hr
    show row.length = c.width
    by_cases hy : y < c.pixels.length
    · rcases List.mem_or_eq_of_mem_set hr with h1 | h2
      · exact hrow _ h1
      · rw [h2, List.length_set, List.getD_eq_getElem _ _ hy]
        exact hrow _ (List.getElem_mem hy)
    · have hr2 : row ∈ c.pixels.set y ((c.pixels.getD y []).set x col) := hr
      rw [List.set_eq_of_length_le (Nat.le_of_not_lt hy)] at hr2
      exact hrow _ hr2

/-- Folding a list of writes over a well-formed canvas preserves width,
height and the grid-shape invariant. -/
theorem Canvas.foldl_write_preserves (ops : List (ℕ × ℕ × Color))
    (c : Canvas) (hwf : c.wellFormed) :
    (ops.foldl (fun c op => c.write_pixel op.1 op.2.1 op.2.2) c).width = c.width
    ∧ (ops.foldl (fun c op => c.write_pixel op.1 op.2.1 op.2.2) c).height
        = c.height
    ∧ (ops.foldl (fun c op => c.write_pixel op.1 op.2.1 op.2.2) c).wellFormed := by
  induction ops generalizing c with
  | nil => exact ⟨rfl, rfl, hwf⟩
  | cons op ops ih =>
      obtain ⟨hw, hh, hwf2⟩ :=
        Canvas.write_pixel_preserves c op.1 op.2.1 op.2.2 hwf
      obtain ⟨ihw, ihh, ihwf⟩ := ih (c.write_pixel op.1 op.2.1 op.2.2) hwf2
      exact ⟨ihw.trans hw, ihh.trans hh, ihwf⟩

/-- C10: a canvas built by `Canvas::new` and any sequence of in-bounds
`write_pixel` calls keeps `width = w`, `height = h` and a grid of exactly
`h` rows of `w` cells; consequently the `pixels[y][x]` accesses of
`pixel_at` and `write_pixel` are in bounds for in-bounds coordinates. -/
theorem claim_C10_shape_invariant :
    (∀ w h : ℕ, (Canvas.new w h).width = w ∧ (Canvas.new w h).height = h
      ∧ (Canvas.new w h).wellFormed)
    ∧ (∀ (c : Canvas) (x y : ℕ) (col : Color), c.wellFormed →
        x < c.width → y < c.height →
        (c.write_pixel x y col).width = c.width
        ∧ (c.write_pixel x y col).height = c.height
        ∧ (c.write_pixel x y col).wellFormed)
    ∧ (∀ (w h : ℕ) (ops : List (ℕ × ℕ × Color)),
        (∀ op ∈ ops, op.1 < w ∧ op.2.1 < h) →
        (ops.foldl (fun c op => c.write_pixel op.1 op.2.1 op.2.2)
            (Canvas.new w h)).width = w
        ∧ (ops.foldl (fun c op => c.write_pixel op.1 op.2.1 op.2.2)
            (Canvas.new w h)).height = h
        ∧ (ops.foldl (fun c op => c.write_pixel op.1 op.2.1 op.2.2)
            (Canvas.new w h)).wellFormed)
    ∧ (∀ (c : Canvas) (x y : ℕ), c.wellFormed → x < c.width → y < c.height →
        y < c.pixels.length ∧ x < (c.pixels.getD y []).length) := by
  have hnew : ∀ w h : ℕ, (Canvas.new w h).width = w
      ∧ (Canvas.new w h).height = h ∧ (Canvas.new w h).wellFormed := by
    intro w h
    refine ⟨rfl, rfl, ?_, ?_⟩
    · show (List.replicate h (List.replicate w black)).length = h
      simp
    · intro row hr
      show row.length = w
      rw [List.eq_of_mem_replicate hr]
      simp
  refine ⟨hnew, fun c x y col hwf _ _ =>
      Canvas.write_pixel_preserves c x y col hwf,
    fun w h ops _ => ?_, fun c x y hwf hx hy => ?_⟩
  · obtain ⟨hw, hh, hwf2⟩ :=
      Canvas.foldl_write_preserves ops (Canvas.new w h) (hnew w h).2.2
    exact ⟨hw.trans (hnew w h).1, hh.trans (hnew w h).2.1, hwf2⟩
  · obtain ⟨hlen, hrow⟩ := hwf
    have hyb : y < c.pixels.length := by rw [hlen]; exact hy
    refine ⟨hyb, ?_⟩
    rw [List.getD_eq_getElem _ _ hyb, hrow _ (List.getElem_mem hyb)]
    exact hx

/-- Witness for C10: a 10×20 canvas with one in-bounds write keeps its
shape, and the test coordinate (2,3) is a safe index. -/
theorem claim_C10_witness :
    (([((2 : ℕ), (3 : ℕ), Color.new 1 0 0)].foldl
        (fun c op => c.write_pixel op.1 op.2.1 op.2.2)
        (Canvas.new 10 20)).width = 10
      ∧ ([((2 : ℕ), (3 : ℕ), Color.new 1 0 0)].foldl
        (fun c op => c.write_pixel op.1 op.2.1 op.2.2)
        (Canvas.new 10 20)).height = 20
      ∧ ([((2 : ℕ), (3 : ℕ), Color.new 1 0 0)].foldl
        (fun c op => c.write_pixel op.1 op.2.1 op.2.2)
        (Canvas.new 10 20)).wellFormed)
    ∧ (((Canvas.new 10 20).write_pixel 2 3 (Color.new 1 0 0)).width
          = (Canvas.new 10 20).width
      ∧ ((Canvas.new 10 20).write_pixel 2 3 (Color.new 1 0 0)).height
          = (Canvas.new 10 20).height
      ∧ ((Canvas.new 10 20).write_pixel 2 3 (Color.new 1 0 0)).wellFormed)
    ∧ (3 < (Canvas.new 10 20).pixels.length
      ∧ 2 < ((Canvas.new 10 20).pixels.getD 3 []).length) :=
  ⟨claim_C10_shape_invariant.2.2.1 10 20 [(2, 3, Color.new 1 0 0)]
      (by decide),
   claim_C10_shape_invariant.2.1 (Canvas.new 10 20) 2 3 (Color.new 1 0 0)
      (by decide) (by decide) (by decide),
   claim_C10_shape_invariant.2.2.2 (Canvas.new 10 20) 2 3 (by decide)
      (by decide) (by decide)⟩

end Ray

namespace Ray

/-- Mapping over a list is mapping over its index range, reading each
position with `getD` (the default is never reached). -/
theorem map_eq_range_map {α β : Type} (l : List α) (f : α → β) (d : α) :
    l.map f = (List.range l.length).map (fun i => f (l.getD i d)) := by
  induction l with
  | nil => rfl
  | cons a l ih =>
      simp only [List.map_cons, List.length_cons, List.range_succ_eq_map,
        List.map_map, Function.comp_def, List.getD_cons_zero,
        List.getD_cons_succ]
      rw [ih]

/-- C1: for a well-formed canvas with at least one row, `canvas_to_ppm`
produces exactly the layout of the claim (`ppmSpec`): the line `P3`, the
line `width height`, the line `255`, then `height` pixel lines, one per
row top to bottom, each the space-joined channel triples of that row's
pixels left to right, with single newlines between pixel lines and one
trailing newline. -/
theorem claim_C1_canvas_to_ppm_layout (c : Canvas) (hwf : c.wellFormed)
    (_hh : 0 < c.height) : c.canvas_to_ppm = ppmSpec c := by
  obtain ⟨hlen, hrow⟩ := hwf
  have h255 : toString (255 : Int) = "255" := rfl
  have hmap : c.pixels.map
        (fun row => String.intercalate " " (row.map Color.to_string))
      = (List.range c.height).map (fun y => String.intercalate " "
          ((List.range c.width).map (fun x => Color.to_string (c.pixel_at x y)))) := by
    rw [map_eq_range_map c.pixels
      (fun row => String.intercalate " " (row.map Color.to_string)) [], hlen]
    refine List.map_congr_left ?_
    intro y hy
    have hyb : y < c.pixels.length := by
      rw [hlen]; exact List.mem_range.1 hy
    have hrowlen : (c.pixels.getD y []).length = c.width := by
      rw [List.getD_eq_getElem _ _ hyb]
      exact hrow _ (List.getElem_mem hyb)
    rw [map_eq_range_map (c.pixels.getD y []) Color.to_string black, hrowlen]
    rfl
  rw [Canvas.canvas_to_ppm, ppmSpec, Canvas.pixels_to_string, h255, hmap]

/-- Witness for C1 on the 5×3 canvas of the repository's PPM test. -/
theorem claim_C1_witness :
    ((((Canvas.new 5 3).write_pixel 0 0 (Color.new 1 0 0)).write_pixel 2 1
        (Color.new 0 (1 / 2) 0)).write_pixel 4 2
        (Color.new 0 0 1)).canvas_to_ppm
      = ppmSpec ((((Canvas.new 5 3).write_pixel 0 0
          (Color.new 1 0 0)).write_pixel 2 1
          (Color.new 0 (1 / 2) 0)).write_pixel 4 2 (Color.new 0 0 1)) :=
  claim_C1_canvas_to_ppm_layout _ (by decide) (by decide)

end Ray
